import Mathlib

/-!
Verification development for the SAT-encoding engine of `TS.py`
(`SentenceTranslator`): the variable-indexing scheme, the determinism
formula, the table-based aggregation of positive samples and the
per-sentence constraint builders.

Conventions of the shallow embedding:
* `S` stands for `len(alphabet)` (`get_size()`), `k` for the slot count.
* `gen_id_table` assigns `src ↦ 0`, the `j`-th alphabet character `↦ j`
  (`j ∈ [1..S]`) and `snk ↦ S+1`; a sample string over the alphabet is
  therefore represented directly by its list of character ids, each in
  `[1..S]`.
* Z3 formulas are modelled by the `Formula` tree below; `var_list[i]`
  is modelled by `var_at S k i` (`BoolVal(True)` at index `0`,
  `BoolVal(False)` at index `(k*S+1)^2 + 1`, a named variable otherwise).
* Python dicts (the seven occurrence tables) are modelled by
  insertion-ordered association lists `List (κ × Nat)`; `setdefault`
  followed by `+= 1` is the `bump` operation.  Dict key sets are
  duplicate-free, which is the `wf_tables` representation invariant.
* All arithmetic in the indexing scheme is on nonnegative integers on
  every path exercised here, so `Nat` subtraction agrees with Python.
-/

/-- Boolean formula trees, mirroring the z3 node shapes used by `TS.py`
(`BoolVal`, `Bool`, `Not`, `Implies`, and the list-shaped `And`/`Or`). -/
inductive Formula : Type where
  | tt : Formula
  | ff : Formula
  | var : Nat → Formula
  | not : Formula → Formula
  | imp : Formula → Formula → Formula
  | and : List Formula → Formula
  | or : List Formula → Formula

mutual

/-- Truth value of a formula under an assignment of the indexed variables. -/
def Formula.eval (rho : Nat → Bool) : Formula → Bool
  | .tt => true
  | .ff => false
  | .var n => rho n
  | .not f => ! f.eval rho
  | .imp a b => ! a.eval rho || b.eval rho
  | .and l => Formula.evalAll rho l
  | .or l => Formula.evalAny rho l

/-- Conjunction of the truth values of a list of formulas. -/
def Formula.evalAll (rho : Nat → Bool) : List Formula → Bool
  | [] => true
  | f :: fs => f.eval rho && Formula.evalAll rho fs

/-- Disjunction of the truth values of a list of formulas. -/
def Formula.evalAny (rho : Nat → Bool) : List Formula → Bool
  | [] => false
  | f :: fs => f.eval rho || Formula.evalAny rho fs

end

/-- Number `N = k*S + 1` from `get_number` (`cls.k * cls.get_size() + 1`). -/
def get_number (S k : Nat) : Nat := k * S + 1

/-- Embedding of `_quadruple_to_idx` (TS.py lines 294-319): maps an edge
4-tuple `(id1, k1, id2, k2)` to its index in `var_list`.  The source
performs no validation and applies the same arithmetic to any input. -/
def quadruple_to_idx (S k id1 k1 id2 k2 : Nat) : Nat :=
  if id1 = 0 ∧ id2 = S + 1 then get_number S k
  else if id1 = 0 then (id2 - 1) * k + k2
  else if id2 = S + 1 then ((id1 - 1) * k + k1 + 1) * get_number S k
  else ((id1 - 1) * k + k1) * get_number S k + (id2 - 1) * k + k2

/-- Embedding of `_idx_to_quadruple` (TS.py lines 321-339):
`row, col = divmod(idx, number)`, `id1, k1 = divmod(row-1, k)`,
`id2, k2 = divmod(col-1, k)`, returning each component plus one. -/
def idx_to_quadruple (S k idx : Nat) : Nat × Nat × Nat × Nat :=
  let row := idx / get_number S k
  let col := idx % get_number S k
  ((row - 1) / k + 1, (row - 1) % k + 1, (col - 1) / k + 1, (col - 1) % k + 1)

/-- Entry `var_list[i]` built by `gen_var_list` (TS.py lines 113-122):
`BoolVal(True)` at index 0, `BoolVal(False)` at index `number^2 + 1`,
the named boolean `A_i` otherwise. -/
def var_at (S k i : Nat) : Formula :=
  if i = 0 then .tt
  else if i = (get_number S k) ^ 2 + 1 then .ff
  else .var i

/-- Embedding of `_get_and_formula` (TS.py lines 180-199). -/
def get_and_formula (S k : Nat) (idx_list : List Nat) (ext : Bool) : Formula :=
  if idx_list = [] then var_at S k 0
  else if ext then .and (idx_list.map (var_at S k))
  else .and (idx_list.map (fun i => .not (var_at S k i)))

/-- Embedding of `_get_or_formula` (TS.py lines 201-220). -/
def get_or_formula (S k : Nat) (idx_list : List Nat) (ext : Bool) : Formula :=
  if idx_list = [] then var_at S k 0
  else if ext then .or (idx_list.map (var_at S k))
  else .or (idx_list.map (fun i => .not (var_at S k i)))

/-- Embedding of `_get_alphabet_to_alphabet_list` (TS.py lines 222-249). -/
def get_alphabet_to_alphabet_list (S k id1 id2 : Nat) (ext : Bool) : List Nat :=
  if ext then (List.range' 1 k).map (fun k2 => quadruple_to_idx S k id1 1 id2 k2)
  else if id1 = 0 then [quadruple_to_idx S k 0 0 id2 1]
  else if id2 = S + 1 then
    (List.range' 1 k).map (fun k1 => quadruple_to_idx S k id1 k1 id2 0)
  else
    (List.range' 1 k).flatMap (fun k1 =>
      (List.range' 1 k).map (fun k2 => quadruple_to_idx S k id1 k1 id2 k2))

/-- Embedding of `_get_alphabet_to_alphabet_imply_list` (TS.py lines
252-292), including the hardcoded `id3 == 3` comparison on the
pair-before-`snk` branch. -/
def get_alphabet_to_alphabet_imply_list (S k id1 id2 id3 : Nat) (ext : Bool) :
    List (List Nat × List Nat) :=
  if ext then
    (List.range' 1 k).map (fun k2 =>
      ([quadruple_to_idx S k id1 1 id2 k2],
       (List.range' 1 k).map (fun k3 => quadruple_to_idx S k id2 k2 id3 k3)))
  else if id3 = S + 1 then
    (List.range' 1 k).map (fun k2 =>
      ((if id3 = 3 then [quadruple_to_idx S k id1 1 id2 k2]
        else (List.range' 1 k).map (fun k1 => quadruple_to_idx S k id1 k1 id2 k2)),
       [quadruple_to_idx S k id2 k2 id3 0]))
  else
    (List.range' 1 k).map (fun k2 =>
      ((List.range' 1 k).map (fun k1 => quadruple_to_idx S k id1 k1 id2 k2),
       (List.range' 1 k).map (fun k3 => quadruple_to_idx S k id2 k2 id3 k3)))

/-- Embedding of `gen_deterministic_formula` (TS.py lines 138-178).
Characters are iterated in id order (`id_table` is order-preserving). -/
def gen_deterministic_formula (S k : Nat) : Formula :=
  if k = 1 then var_at S k 0
  else
    let part_1 := (List.range' 1 S).map (fun id2 =>
      let var_idx := quadruple_to_idx S k 0 0 id2 1
      let neg_idx_list := (List.range' 1 k).map (fun k2 => quadruple_to_idx S k 0 0 id2 k2)
      Formula.or [var_at S k var_idx, get_and_formula S k neg_idx_list false])
    let part_2 := (List.range' 1 S).flatMap (fun id1 =>
      (List.range' 1 S).flatMap (fun id2 =>
        (List.range' 1 k).map (fun k1 =>
          let choices := (List.range' 1 k).map (fun m =>
            let pos_idx := quadruple_to_idx S k id1 k1 id2 m
            let neg_idx_list := ((List.range' 1 k).filter (fun k2 => k2 ≠ m)).map
              (fun k2 => quadruple_to_idx S k id1 k1 id2 k2)
            Formula.and [var_at S k pos_idx, get_and_formula S k neg_idx_list false])
          let none_idx_list := (List.range' 1 k).map (fun k2 => quadruple_to_idx S k id1 k1 id2 k2)
          Formula.or (choices ++ [get_and_formula S k none_idx_list false]))))
    Formula.and (part_1 ++ part_2)

/-- Python dict modelled as an insertion-ordered association list
from keys to occurrence counts. -/
abbrev Table (κ : Type) := List (κ × Nat)

/-- Embedding of `table.setdefault(x, 0)` followed by `table[x] += 1`:
increment the entry of `x`, appending `(x, 1)` if `x` is absent. -/
def bump {κ : Type} [DecidableEq κ] : Table κ → κ → Table κ
  | [], x => [(x, 1)]
  | (y, c) :: rest, x => if y = x then (y, c + 1) :: rest else (y, c) :: bump rest x

/-- Count stored for a key (0 if absent), as `table.get(x, 0)`. -/
def cnt {κ : Type} [DecidableEq κ] : Table κ → κ → Nat
  | [], _ => 0
  | (y, c) :: rest, x => if y = x then c else cnt rest x

/-- Keys of a table, in insertion order. -/
def keysOf {κ : Type} (T : Table κ) : List κ := T.map Prod.fst

/-- Keys whose count is positive, in insertion order: exactly the keys
processed by the `if value>0` loops of the global constraint builder. -/
def posKeys {κ : Type} (T : Table κ) : List κ :=
  T.filterMap (fun p => if 0 < p.2 then some p.1 else none)

/-- The seven occurrence tables of `SentenceTranslator`
(TS.py lines 83-90). -/
structure Tables where
  src_to_alphabet1 : Table Nat
  alphabet1_to_alphabet : Table (Nat × Nat)
  alphabet_to_alphabet : Table (Nat × Nat)
  alphabet_to_snk : Table Nat
  alphabet1_to_alphabet_imply : Table (Nat × Nat × Nat)
  alphabet_to_alphabet_imply : Table (Nat × Nat × Nat)
  alphabet_to_snk_imply : Table (Nat × Nat)

/-- The initial (empty) state of the seven tables. -/
def emptyTables : Tables := ⟨[], [], [], [], [], [], []⟩

/-- Representation invariant of a Python dict state: no duplicate keys. -/
def wf_tables (T : Tables) : Bool :=
  decide (keysOf T.src_to_alphabet1).Nodup
  && decide (keysOf T.alphabet1_to_alphabet).Nodup
  && decide (keysOf T.alphabet_to_alphabet).Nodup
  && decide (keysOf T.alphabet_to_snk).Nodup
  && decide (keysOf T.alphabet1_to_alphabet_imply).Nodup
  && decide (keysOf T.alphabet_to_alphabet_imply).Nodup
  && decide (keysOf T.alphabet_to_snk_imply).Nodup

/-- Embedding of the `ext=False` (table-updating) branch of
`_gen_sentence_constraint_a` (TS.py lines 528-556).  Only called on a
nonempty sentence; `s.getD i 0` models the Python `s[i]`, and
`s.getD (s.length - 1) 0` is `s[-1]`. -/
def agg_constraint_a (s : List Nat) (T : Tables) : Tables :=
  let T := { T with src_to_alphabet1 := bump T.src_to_alphabet1 (s.getD 0 0) }
  let T := { T with alphabet_to_snk := bump T.alphabet_to_snk (s.getD (s.length - 1) 0) }
  let T := if 1 < s.length then
      { T with alphabet1_to_alphabet := bump T.alphabet1_to_alphabet (s.getD 0 0, s.getD 1 0) }
    else T
  if 2 < s.length then
    let tb := (List.range' 1 (s.length - 2)).foldl
      (fun tb i => bump tb (s.getD i 0, s.getD (i + 1) 0)) T.alphabet_to_alphabet
    { T with alphabet_to_alphabet := tb }
  else T

/-- Embedding of the `ext=False` (table-updating) branch of
`_gen_sentence_constraint_b` (TS.py lines 569-591). -/
def agg_constraint_b (s : List Nat) (T : Tables) : Tables :=
  let T := if 1 < s.length then
      let tb := bump T.alphabet_to_snk_imply (s.getD (s.length - 2) 0, s.getD (s.length - 1) 0)
      { T with alphabet_to_snk_imply := tb }
    else T
  if 2 < s.length then
    let tb1 := bump T.alphabet1_to_alphabet_imply (s.getD 0 0, s.getD 1 0, s.getD 2 0)
    let T := { T with alphabet1_to_alphabet_imply := tb1 }
    let tb := (List.range' 1 (s.length - 3)).foldl
      (fun tb i => bump tb (s.getD i 0, s.getD (i + 1) 0, s.getD (i + 2) 0))
      T.alphabet_to_alphabet_imply
    { T with alphabet_to_alphabet_imply := tb }
  else T

/-- Embedding of `__gen_a_src` (TS.py lines 605-608). -/
def gen_a_src (S k : Nat) (s : List Nat) : Formula :=
  var_at S k (quadruple_to_idx S k 0 0 (s.getD 0 0) 1)

/-- Embedding of `__gen_a_src_1` (TS.py lines 610-615). -/
def gen_a_src_1 (S k : Nat) (s : List Nat) : Formula :=
  let id1 := s.getD 0 0
  let id2 := s.getD 1 0
  get_or_formula S k ((List.range' 1 k).map (fun j => quadruple_to_idx S k id1 1 id2 j)) true

/-- Embedding of `__gen_a_common` (TS.py lines 617-626); the unused
`start_idx` computation of line 622 has no effect and is omitted. -/
def gen_a_common (S k : Nat) (s : List Nat) : Formula :=
  Formula.and ((List.range' 1 (s.length - 2)).map (fun i =>
    get_or_formula S k
      (get_alphabet_to_alphabet_list S k (s.getD i 0) (s.getD (i + 1) 0) false) true))

/-- Embedding of `__gen_a_snk` (TS.py lines 628-637). -/
def gen_a_snk (S k : Nat) (s : List Nat) : Formula :=
  let id1 := s.getD (s.length - 1) 0
  if s.length = 1 then var_at S k (quadruple_to_idx S k id1 1 (S + 1) 0)
  else
    get_or_formula S k
      ((List.range' 1 k).map (fun k1 => quadruple_to_idx S k id1 k1 (S + 1) 0)) true

/-- Embedding of `__gen_constraint_a_formula` (TS.py lines 593-603). -/
def gen_constraint_a_formula (S k : Nat) (s : List Nat) : Formula :=
  Formula.and ([gen_a_src S k s]
    ++ (if 1 < s.length then [gen_a_src_1 S k s] else [])
    ++ (if 2 < s.length then [gen_a_common S k s] else [])
    ++ [gen_a_snk S k s])

/-- Embedding of `__gen_b_src` (TS.py lines 653-666). -/
def gen_b_src (S k : Nat) (s : List Nat) : Formula :=
  let id1 := s.getD 0 0
  let id2 := s.getD 1 0
  let id3 := s.getD 2 0
  Formula.and ((List.range' 1 k).map (fun j =>
    Formula.imp (var_at S k (quadruple_to_idx S k id1 1 id2 j))
      (get_or_formula S k
        ((List.range' 1 k).map (fun j1 => quadruple_to_idx S k id2 j id3 j1)) true)))

/-- Embedding of `__gen_b_common` (TS.py lines 668-684). -/
def gen_b_common (S k : Nat) (s : List Nat) : Formula :=
  let result := (List.range' 1 (s.length - 3)).flatMap (fun i =>
    (get_alphabet_to_alphabet_imply_list S k
        (s.getD i 0) (s.getD (i + 1) 0) (s.getD (i + 2) 0) false).map
      (fun pp => Formula.imp (get_or_formula S k pp.1 true) (get_or_formula S k pp.2 true)))
  if result.isEmpty then var_at S k 0 else Formula.and result

/-- Embedding of `__gen_b_snk` (TS.py lines 686-706). -/
def gen_b_snk (S k : Nat) (s : List Nat) : Formula :=
  let id1 := s.getD (s.length - 2) 0
  let id2 := s.getD (s.length - 1) 0
  Formula.and ((List.range' 1 k).map (fun j =>
    let pre := if s.length = 2 then var_at S k (quadruple_to_idx S k id1 1 id2 j)
      else
        get_or_formula S k
          ((List.range' 1 k).map (fun j1 => quadruple_to_idx S k id1 j1 id2 j)) true
    Formula.imp pre (var_at S k (quadruple_to_idx S k id2 j (S + 1) 0))))

/-- Embedding of `__gen_constraint_b_formula` (TS.py lines 639-651). -/
def gen_constraint_b_formula (S k : Nat) (s : List Nat) : Formula :=
  if s.length ≤ 1 then var_at S k 0
  else
    Formula.and ((if 2 < s.length then [gen_b_src S k s, gen_b_common S k s] else [])
      ++ [gen_b_snk S k s])

/-- Embedding of `_gen_sentence_constraint_a` (TS.py lines 518-556):
the `ext=True` branch returns the part-a formula and leaves the tables
alone, the `ext=False` branch updates the tables and returns `None`. -/
def gen_sentence_constraint_a (S k : Nat) (ext : Bool) (s : List Nat) (T : Tables) :
    Tables × Option Formula :=
  if ext then (T, some (gen_constraint_a_formula S k s))
  else (agg_constraint_a s T, none)

/-- Embedding of `_gen_sentence_constraint_b` (TS.py lines 558-591). -/
def gen_sentence_constraint_b (S k : Nat) (ext : Bool) (s : List Nat) (T : Tables) :
    Tables × Option Formula :=
  if ext then (T, some (gen_constraint_b_formula S k s))
  else (agg_constraint_b s T, none)

/-- Embedding of `gen_sentence_constraint` (TS.py lines 494-516):
returns the updated table state together with the formula
`And(const_a, const_b)` when `ext` is true (`None` otherwise). -/
def gen_sentence_constraint (S k : Nat) (s : List Nat) (ext : Bool) (T : Tables) :
    Tables × Option Formula :=
  let pa := if s.length = 0 then (T, some (var_at S k 0))
    else gen_sentence_constraint_a S k ext s T
  let pb := if k ≤ 1 then (pa.1, some (var_at S k 0))
    else gen_sentence_constraint_b S k ext s pa.1
  if ext then (pb.1, some (Formula.and [(pa.2.getD (var_at S k 0)), (pb.2.getD (var_at S k 0))]))
  else (pb.1, none)

/-- The `const_a` computed by `gen_sentence_constraint(ext=True)`
(TS.py lines 503-507): the standalone per-sentence "Part a" formula. -/
def per_sample_part_a (S k : Nat) (s : List Nat) : Formula :=
  if s.length = 0 then var_at S k 0 else gen_constraint_a_formula S k s

/-- Embedding of `_generate_global_constraint_a` (TS.py lines 413-449). -/
def generate_global_constraint_a (S k : Nat) (T : Tables) : List Formula :=
  let part_1 := (posKeys T.src_to_alphabet1).flatMap
    (fun id2 => get_alphabet_to_alphabet_list S k 0 id2 false)
  [get_and_formula S k part_1 true]
  ++ (posKeys T.alphabet1_to_alphabet).map (fun key =>
       get_or_formula S k (get_alphabet_to_alphabet_list S k key.1 key.2 true) true)
  ++ (posKeys T.alphabet_to_alphabet).map (fun key =>
       get_or_formula S k (get_alphabet_to_alphabet_list S k key.1 key.2 false) true)
  ++ (posKeys T.alphabet_to_snk).map (fun id1 =>
       get_or_formula S k (get_alphabet_to_alphabet_list S k id1 (S + 1) false) true)

/-- Embedding of `_generate_global_constraint_b` (TS.py lines 451-489). -/
def generate_global_constraint_b (S k : Nat) (T : Tables) : List Formula :=
  (posKeys T.alphabet1_to_alphabet_imply).flatMap (fun key =>
      (get_alphabet_to_alphabet_imply_list S k key.1 key.2.1 key.2.2 true).map
        (fun pp => Formula.imp (get_or_formula S k pp.1 true) (get_or_formula S k pp.2 true)))
  ++ (posKeys T.alphabet_to_alphabet_imply).flatMap (fun key =>
      (get_alphabet_to_alphabet_imply_list S k key.1 key.2.1 key.2.2 false).map
        (fun pp => Formula.imp (get_or_formula S k pp.1 true) (get_or_formula S k pp.2 true)))
  ++ (posKeys T.alphabet_to_snk_imply).flatMap (fun key =>
      (get_alphabet_to_alphabet_imply_list S k key.1 key.2 (S + 1) false).map
        (fun pp => Formula.imp (get_or_formula S k pp.1 true) (get_or_formula S k pp.2 true)))

/-- Embedding of `generate_global_constraint` (TS.py lines 397-410). -/
def generate_global_constraint (S k : Nat) (T : Tables) : Formula :=
  let parts := generate_global_constraint_a S k T ++ generate_global_constraint_b S k T
  if parts.isEmpty then var_at S k 0 else Formula.and parts

/-- Table state after aggregating a list of positive samples (the
`ext=False` calls of `generate_fomula` in `ts_demo.py`), starting from
the initial empty tables. -/
def aggregate_samples (S k : Nat) (samples : List (List Nat)) : Tables :=
  samples.foldl (fun T s => (gen_sentence_constraint S k s false T).1) emptyTables

/-- Valid edge 4-tuples of the addressing scheme: `src→symbol`,
`src→snk`, `symbol→snk` and interior `symbol→symbol` edges, with ids in
`[1..S]` and slots in `[1..k]` (`src`/`snk` use the degenerate slot 0). -/
def valid_tuple (S k : Nat) (t : Nat × Nat × Nat × Nat) : Prop :=
  (t.1 = 0 ∧ t.2.1 = 0 ∧ 1 ≤ t.2.2.1 ∧ t.2.2.1 ≤ S ∧ 1 ≤ t.2.2.2 ∧ t.2.2.2 ≤ k)
  ∨ (t.1 = 0 ∧ t.2.1 = 0 ∧ t.2.2.1 = S + 1 ∧ t.2.2.2 = 0)
  ∨ (1 ≤ t.1 ∧ t.1 ≤ S ∧ 1 ≤ t.2.1 ∧ t.2.1 ≤ k ∧ t.2.2.1 = S + 1 ∧ t.2.2.2 = 0)
  ∨ (1 ≤ t.1 ∧ t.1 ≤ S ∧ 1 ≤ t.2.1 ∧ t.2.1 ≤ k
      ∧ 1 ≤ t.2.2.1 ∧ t.2.2.1 ≤ S ∧ 1 ≤ t.2.2.2 ∧ t.2.2.2 ≤ k)

instance (S k : Nat) (t : Nat × Nat × Nat × Nat) : Decidable (valid_tuple S k t) := by
  unfold valid_tuple; infer_instance

/-- Uncurried form of `quadruple_to_idx` on edge 4-tuples. -/
def quad_idx (S k : Nat) (t : Nat × Nat × Nat × Nat) : Nat :=
  quadruple_to_idx S k t.1 t.2.1 t.2.2.1 t.2.2.2

/-- First-symbol evidence a sample contributes to `src_to_alphabet1_table`. -/
def src_ev (s : List Nat) : List Nat :=
  if s.length = 0 then [] else [s.getD 0 0]

/-- Last-symbol evidence a sample contributes to `alphabet_to_snk_table`. -/
def snk_ev (s : List Nat) : List Nat :=
  if s.length = 0 then [] else [s.getD (s.length - 1) 0]

/-- First-pair evidence a sample contributes to `alphabet1_to_alphabet_table`. -/
def a1a_ev (s : List Nat) : List (Nat × Nat) :=
  if 1 < s.length then [(s.getD 0 0, s.getD 1 0)] else []

/-- Interior-pair evidence a sample contributes to `alphabet_to_alphabet_table`. -/
def aa_ev (s : List Nat) : List (Nat × Nat) :=
  if 2 < s.length then
    (List.range' 1 (s.length - 2)).map (fun i => (s.getD i 0, s.getD (i + 1) 0))
  else []

/-- Pair-before-`snk` evidence of a sample (`alphabet_to_snk_imply_table`). -/
def snk_pair_ev (s : List Nat) : List (Nat × Nat) :=
  if 1 < s.length then [(s.getD (s.length - 2) 0, s.getD (s.length - 1) 0)] else []

/-- First-triple evidence of a sample (`alphabet1_to_alphabet_imply_table`). -/
def first_triple_ev (s : List Nat) : List (Nat × Nat × Nat) :=
  if 2 < s.length then [(s.getD 0 0, s.getD 1 0, s.getD 2 0)] else []

/-- Interior-triple evidence of a sample (`alphabet_to_alphabet_imply_table`). -/
def interior_triple_ev (s : List Nat) : List (Nat × Nat × Nat) :=
  if 2 < s.length then
    (List.range' 1 (s.length - 3)).map
      (fun i => (s.getD i 0, s.getD (i + 1) 0, s.getD (i + 2) 0))
  else []

/-- The edge/triple evidence of a sample set contains no repeats: each
kind of evidence, concatenated across the samples, is duplicate-free. -/
def no_repeat_evidence (samples : List (List Nat)) : Prop :=
  (samples.flatMap src_ev).Nodup ∧ (samples.flatMap a1a_ev).Nodup
  ∧ (samples.flatMap aa_ev).Nodup ∧ (samples.flatMap snk_ev).Nodup
  ∧ (samples.flatMap first_triple_ev).Nodup
  ∧ (samples.flatMap interior_triple_ev).Nodup
  ∧ (samples.flatMap snk_pair_ev).Nodup

instance (samples : List (List Nat)) : Decidable (no_repeat_evidence samples) := by
  unfold no_repeat_evidence; infer_instance

/-- All counts stored in a table are positive (true of every table state
reachable from the initial empty tables). -/
def all_pos {κ : Type} (T : Table κ) : Prop := ∀ p ∈ T, 0 < p.2
theorem Formula.evalAll_eq_all (rho : Nat → Bool) (l : List Formula) :
    Formula.evalAll rho l = l.all (Formula.eval rho) := by
  induction l with
  | nil => rfl
  | cons f fs ih => simp [Formula.evalAll, ih, List.all_cons]

theorem Formula.evalAny_eq_any (rho : Nat → Bool) (l : List Formula) :
    Formula.evalAny rho l = l.any (Formula.eval rho) := by
  induction l with
  | nil => rfl
  | cons f fs ih => simp [Formula.evalAny, ih, List.any_cons]

theorem Formula.eval_and (rho : Nat → Bool) (l : List Formula) :
    (Formula.and l).eval rho = l.all (Formula.eval rho) := by
  rw [Formula.eval, Formula.evalAll_eq_all]

theorem Formula.eval_or (rho : Nat → Bool) (l : List Formula) :
    (Formula.or l).eval rho = l.any (Formula.eval rho) := by
  rw [Formula.eval, Formula.evalAny_eq_any]

theorem Formula.eval_and_eq_true (rho : Nat → Bool) (l : List Formula) :
    ((Formula.and l).eval rho = true) ↔ ∀ f ∈ l, f.eval rho = true := by
  rw [Formula.eval_and, List.all_eq_true]


theorem pe_bound (kk SS a b : Nat) (ha : a + 1 ≤ SS) (hb1 : 1 ≤ b) (hb : b ≤ kk) :
    1 ≤ a * kk + b ∧ a * kk + b ≤ kk * SS := by
  refine ⟨le_trans hb1 (Nat.le_add_left _ _), ?_⟩
  calc a * kk + b ≤ a * kk + kk := Nat.add_le_add_left hb _
    _ = (a + 1) * kk := (Nat.succ_mul a kk).symm
    _ ≤ SS * kk := Nat.mul_le_mul_right kk ha
    _ = kk * SS := Nat.mul_comm SS kk

theorem pe_decode (kk a b : Nat) (hb1 : 1 ≤ b) (hb : b ≤ kk) :
    (a * kk + b - 1) / kk = a ∧ (a * kk + b - 1) % kk = b - 1 := by
  have hkk : 0 < kk := lt_of_lt_of_le hb1 hb
  have h : a * kk + b - 1 = kk * a + (b - 1) := by rw [Nat.mul_comm]; omega
  constructor
  · rw [h, Nat.mul_add_div hkk, Nat.div_eq_of_lt (by omega), Nat.add_zero]
  · rw [h, Nat.mul_add_mod, Nat.mod_eq_of_lt (by omega)]

theorem pe_inj (kk a b a' b' : Nat) (hb1 : 1 ≤ b) (hb : b ≤ kk)
    (hb1' : 1 ≤ b') (hb' : b' ≤ kk) (h : a * kk + b = a' * kk + b') :
    a = a' ∧ b = b' := by
  have d := pe_decode kk a b hb1 hb
  have d' := pe_decode kk a' b' hb1' hb'
  rw [h] at d
  have ha : a = a' := d.1.symm.trans d'.1
  have hb2 : b - 1 = b' - 1 := d.2.symm.trans d'.2
  exact ⟨ha, by omega⟩

/-- C2: for every 4-tuple `(id1, slot1, id2, slot2)` in the interior
block — ids in `[1..S]`, slots in `[1..k]` — decoding the encoded index
returns the original tuple:
`_idx_to_quadruple(_quadruple_to_idx(id1,s1,id2,s2)) = (id1,s1,id2,s2)`. -/
theorem roundtrip_interior (S k id1 k1 id2 k2 : Nat)
    (h1 : 1 ≤ id1) (h2 : id1 ≤ S) (h3 : 1 ≤ id2) (h4 : id2 ≤ S)
    (h5 : 1 ≤ k1) (h6 : k1 ≤ k) (h7 : 1 ≤ k2) (h8 : k2 ≤ k) :
    idx_to_quadruple S k (quadruple_to_idx S k id1 k1 id2 k2) = (id1, k1, id2, k2) := by
  have hn : 0 < get_number S k := Nat.succ_pos _
  have hr := pe_bound k S (id1 - 1) k1 (by omega) h5 h6
  have hc := pe_bound k S (id2 - 1) k2 (by omega) h7 h8
  have hc_lt : (id2 - 1) * k + k2 < get_number S k :=
    lt_of_le_of_lt hc.2 (Nat.lt_succ_self _)
  have hv : quadruple_to_idx S k id1 k1 id2 k2 =
      get_number S k * ((id1 - 1) * k + k1) + ((id2 - 1) * k + k2) := by
    unfold quadruple_to_idx
    rw [if_neg (by omega), if_neg (by omega), if_neg (by omega)]
    rw [Nat.mul_comm, Nat.add_assoc]
  unfold idx_to_quadruple
  rw [hv, Nat.mul_add_div hn, Nat.div_eq_of_lt hc_lt, Nat.add_zero,
    Nat.mul_add_mod, Nat.mod_eq_of_lt hc_lt]
  dsimp only
  have dr := pe_decode k (id1 - 1) k1 h5 h6
  have dc := pe_decode k (id2 - 1) k2 h7 h8
  rw [dr.1, dr.2, dc.1, dc.2]
  have e1 : id1 - 1 + 1 = id1 := by omega
  have e2 : k1 - 1 + 1 = k1 := by omega
  have e3 : id2 - 1 + 1 = id2 := by omega
  have e4 : k2 - 1 + 1 = k2 := by omega
  rw [e1, e2, e3, e4]

theorem roundtrip_interior_witness :
    (1 ≤ 1 ∧ 1 ≤ 2 ∧ 1 ≤ 2 ∧ 2 ≤ 2) ∧
      idx_to_quadruple 2 3 (quadruple_to_idx 2 3 1 2 2 3) = (1, 2, 2, 3) :=
  ⟨by decide, roundtrip_interior 2 3 1 2 2 3 (by decide) (by decide) (by decide)
    (by decide) (by decide) (by decide) (by decide) (by decide)⟩

/-- C3 counterexample: the index of the `src→snk` edge is
`_quadruple_to_idx(0,0,S+1,0) = k*S+1`; at `(S,k) = (1,1)` it is `2`
while at `(S,k) = (2,1)` it is `3`, so it is not one fixed constant
independent of `S` and `k`. -/
theorem src_snk_idx_depends_on_config :
    quadruple_to_idx 1 1 0 0 (1 + 1) 0 = 2 ∧ quadruple_to_idx 2 1 0 0 (2 + 1) 0 = 3 ∧
      quadruple_to_idx 1 1 0 0 (1 + 1) 0 ≠ quadruple_to_idx 2 1 0 0 (2 + 1) 0 := by
  decide

/-- C3 (amended): the `src→snk` edge occupies the single distinguished
index `get_number S k = k*S+1` — the block size `N` — which depends on
the configuration `(S, k)` rather than being an absolute constant. -/
theorem src_snk_idx_eq_number (S k : Nat) :
    quadruple_to_idx S k 0 0 (S + 1) 0 = get_number S k := by
  unfold quadruple_to_idx
  rw [if_pos ⟨rfl, rfl⟩]

/-- C7 counterexample: with `S = 1, k = 1` the id `3` is outside the
valid domain `[0..2]`, yet `_quadruple_to_idx(0,0,3,1)` raises nothing
and returns the index `3` — which is exactly the index of the valid
interior tuple `(1,1,1,1)`. -/
theorem invalid_id_returns_value :
    quadruple_to_idx 1 1 0 0 3 1 = 3 ∧ quadruple_to_idx 1 1 1 1 1 1 = 3 := by
  decide

/-- C7 (amended): `_quadruple_to_idx` performs no domain validation:
an out-of-range id is silently pushed through the same block
arithmetic, and the result can alias the index of a valid edge — here
the invalid `src`-row id `S+2` collides with the interior edge
`(1,1,1,k)` for every configuration. -/
theorem invalid_id_aliases_valid_idx (S k : Nat) (hS : 1 ≤ S) (hk : 1 ≤ k) :
    quadruple_to_idx S k 0 0 (S + 2) 1 = quadruple_to_idx S k 1 1 1 k := by
  unfold quadruple_to_idx
  rw [if_neg (by omega), if_pos rfl, if_neg (by omega), if_neg (by omega), if_neg (by omega)]
  unfold get_number
  have e0 : (1 : Nat) - 1 = 0 := rfl
  have e1 : S + 2 - 1 = S + 1 := by omega
  rw [e0, e1]
  ring

theorem invalid_id_aliases_valid_idx_witness :
    (1 ≤ 2 ∧ 1 ≤ 3) ∧ quadruple_to_idx 2 3 0 0 4 1 = quadruple_to_idx 2 3 1 1 1 3 :=
  ⟨by decide, invalid_id_aliases_valid_idx 2 3 (by decide) (by decide)⟩

/-- C8: for `k = 1` (any alphabet size `S`), `gen_deterministic_formula`
returns `var_list[0]`, the constant-true sentinel, hence is logically
equivalent to it: it evaluates to true under every assignment. -/
theorem deterministic_formula_k1_true (S : Nat) (rho : Nat → Bool) :
    (gen_deterministic_formula S 1).eval rho = true := by
  unfold gen_deterministic_formula
  rw [if_pos rfl]
  unfold var_at
  rw [if_pos rfl]
  rfl

/-- C10: the standalone path `gen_sentence_constraint(ext=True)` — used
for negative samples and membership queries — leaves the seven
occurrence tables unchanged for every input string and table state
(the configuration `(alphabet, k)`, `id_table` and `var_list` are
read-only parameters of the embedding throughout). -/
theorem standalone_path_preserves_tables (S k : Nat) (s : List Nat) (T : Tables) :
    (gen_sentence_constraint S k s true T).1 = T := by
  unfold gen_sentence_constraint gen_sentence_constraint_a gen_sentence_constraint_b
  by_cases h0 : s.length = 0 <;> by_cases hk : k ≤ 1 <;> simp [h0, hk]

theorem posKeys_cons {κ : Type} (y : κ) (c : Nat) (rest : Table κ) :
    posKeys ((y, c) :: rest) = (if 0 < c then [y] else []) ++ posKeys rest := by
  unfold posKeys
  by_cases h : 0 < c <;> simp [List.filterMap_cons, h]

theorem mem_posKeys_bump_self {κ : Type} [DecidableEq κ] (T : Table κ) (x : κ) :
    x ∈ posKeys (bump T x) := by
  induction T with
  | nil => simp [bump, posKeys]
  | cons p rest ih =>
    obtain ⟨y, c⟩ := p
    by_cases h : y = x
    · subst h; simp [bump, posKeys_cons]
    · simp only [bump, if_neg h, posKeys_cons]
      exact List.mem_append_right _ ih

theorem mem_posKeys_bump_of_mem {κ : Type} [DecidableEq κ] (T : Table κ) (x y : κ)
    (h : y ∈ posKeys T) : y ∈ posKeys (bump T x) := by
  induction T with
  | nil => simp [posKeys] at h
  | cons p rest ih =>
    obtain ⟨z, c⟩ := p
    rw [posKeys_cons] at h
    by_cases hz : z = x
    · subst hz
      rw [bump, if_pos rfl, posKeys_cons]
      rcases List.mem_append.mp h with h | h
      · apply List.mem_append_left
        split at h
        · simp at h; simp [h]
        · simp at h
      · exact List.mem_append_right _ h
    · rw [bump, if_neg hz, posKeys_cons]
      rcases List.mem_append.mp h with h | h
      · exact List.mem_append_left _ h
      · exact List.mem_append_right _ (ih h)

theorem mem_posKeys_foldl_of_mem {κ : Type} [DecidableEq κ] (l : List κ) (T : Table κ)
    (y : κ) (h : y ∈ posKeys T) : y ∈ posKeys (List.foldl bump T l) := by
  induction l generalizing T with
  | nil => exact h
  | cons x xs ih => exact ih _ (mem_posKeys_bump_of_mem T x y h)

theorem mem_posKeys_foldl_self {κ : Type} [DecidableEq κ] (l : List κ) (T : Table κ)
    (x : κ) (h : x ∈ l) : x ∈ posKeys (List.foldl bump T l) := by
  induction l generalizing T with
  | nil => simp at h
  | cons z zs ih =>
    rcases List.mem_cons.mp h with h | h
    · subst h
      exact mem_posKeys_foldl_of_mem zs _ x (mem_posKeys_bump_self T x)
    · exact ih _ h

theorem keysOf_bump {κ : Type} [DecidableEq κ] (T : Table κ) (x : κ) :
    keysOf (bump T x) = if x ∈ keysOf T then keysOf T else keysOf T ++ [x] := by
  induction T with
  | nil => simp [bump, keysOf]
  | cons p rest ih =>
    obtain ⟨y, c⟩ := p
    by_cases h : y = x
    · subst h; simp [bump, keysOf]
    · have hne : ¬x = y := fun hc => h hc.symm
      simp only [bump, if_neg h, keysOf, List.map_cons] at ih ⊢
      rw [ih]
      simp only [List.mem_cons, hne, false_or]
      split <;> simp

theorem mem_keysOf_bump {κ : Type} [DecidableEq κ] (T : Table κ) (x y : κ) :
    y ∈ keysOf (bump T x) ↔ y ∈ keysOf T ∨ y = x := by
  rw [keysOf_bump]
  split <;> rename_i h
  · constructor
    · exact Or.inl
    · rintro (hy | rfl)
      · exact hy
      · exact h
  · simp

theorem cnt_bump_self {κ : Type} [DecidableEq κ] (T : Table κ) (x : κ) :
    cnt (bump T x) x = cnt T x + 1 := by
  induction T with
  | nil => simp [bump, cnt]
  | cons p rest ih =>
    obtain ⟨y, c⟩ := p
    by_cases h : y = x
    · subst h; simp [bump, cnt]
    · rw [bump, if_neg h, cnt, cnt, if_neg h, if_neg h, ih]

theorem cnt_bump_other {κ : Type} [DecidableEq κ] (T : Table κ) (x y : κ) (h : y ≠ x) :
    cnt (bump T x) y = cnt T y := by
  have hxy : ¬x = y := fun hc => h hc.symm
  induction T with
  | nil => simp [bump, cnt, hxy]
  | cons p rest ih =>
    obtain ⟨z, c⟩ := p
    by_cases hz : z = x
    · subst hz
      rw [bump, if_pos rfl, cnt, cnt, if_neg hxy, if_neg hxy]
    · rw [bump, if_neg hz, cnt, cnt]
      split
      · rfl
      · exact ih

theorem cnt_foldl_bump {κ : Type} [DecidableEq κ] (l : List κ) (T : Table κ) (y : κ) :
    cnt (List.foldl bump T l) y = cnt T y + l.count y := by
  induction l generalizing T with
  | nil => simp
  | cons x xs ih =>
    simp only [List.foldl_cons, ih, List.count_cons]
    by_cases h : y = x
    · subst h; rw [cnt_bump_self]; simp; omega
    · rw [cnt_bump_other _ _ _ h]
      have hxy : ¬x = y := fun hc => h hc.symm
      simp [hxy]

theorem mem_keysOf_foldl_bump {κ : Type} [DecidableEq κ] (l : List κ) (T : Table κ) (y : κ) :
    y ∈ keysOf (List.foldl bump T l) ↔ y ∈ keysOf T ∨ y ∈ l := by
  induction l generalizing T with
  | nil => simp
  | cons x xs ih =>
    rw [List.foldl_cons, ih, mem_keysOf_bump]
    simp only [List.mem_cons]
    constructor
    · rintro ((h | h) | h)
      · exact Or.inl h
      · exact Or.inr (Or.inl h)
      · exact Or.inr (Or.inr h)
    · rintro (h | h | h)
      · exact Or.inl (Or.inl h)
      · exact Or.inl (Or.inr h)
      · exact Or.inr h

theorem keysOf_foldl_bump_of_sub {κ : Type} [DecidableEq κ] (l : List κ) (T : Table κ)
    (h : ∀ x ∈ l, x ∈ keysOf T) : keysOf (List.foldl bump T l) = keysOf T := by
  induction l generalizing T with
  | nil => rfl
  | cons x xs ih =>
    rw [List.foldl_cons, ih, keysOf_bump, if_pos (h x (List.mem_cons_self x xs))]
    intro z hz
    rw [mem_keysOf_bump]
    exact Or.inl (h z (List.mem_cons_of_mem x hz))

theorem nodup_keysOf_bump {κ : Type} [DecidableEq κ] (T : Table κ) (x : κ)
    (h : (keysOf T).Nodup) : (keysOf (bump T x)).Nodup := by
  rw [keysOf_bump]
  split
  · exact h
  · rename_i hx
    rw [List.nodup_append]
    exact ⟨h, List.nodup_singleton x, by simpa using fun hc => hx hc⟩

theorem nodup_keysOf_foldl_bump {κ : Type} [DecidableEq κ] (l : List κ) (T : Table κ)
    (h : (keysOf T).Nodup) : (keysOf (List.foldl bump T l)).Nodup := by
  induction l generalizing T with
  | nil => exact h
  | cons x xs ih => exact ih _ (nodup_keysOf_bump T x h)

theorem posKeys_eq_filter {κ : Type} [DecidableEq κ] (T : Table κ)
    (h : (keysOf T).Nodup) :
    posKeys T = (keysOf T).filter (fun x => decide (0 < cnt T x)) := by
  induction T with
  | nil => rfl
  | cons p rest ih =>
    obtain ⟨y, c⟩ := p
    have hy : y ∉ keysOf rest := by
      simp only [keysOf, List.map_cons, List.nodup_cons] at h
      exact h.1
    have hrest : (keysOf rest).Nodup := by
      simp only [keysOf, List.map_cons, List.nodup_cons] at h
      exact h.2
    rw [posKeys_cons, ih hrest]
    simp only [keysOf, List.map_cons, List.filter_cons]
    have hcy : cnt ((y, c) :: rest) y = c := by simp [cnt]
    rw [hcy]
    have hfc : List.filter (fun x => decide (0 < cnt ((y, c) :: rest) x)) (List.map Prod.fst rest)
        = List.filter (fun x => decide (0 < cnt rest x)) (List.map Prod.fst rest) := by
      apply List.filter_congr
      intro x hx
      have hxy : ¬y = x := fun hc => hy (hc ▸ hx)
      simp [cnt, hxy]
    rw [hfc]
    by_cases h0 : 0 < c <;> simp [h0]

theorem all_pos_bump {κ : Type} [DecidableEq κ] (T : Table κ) (x : κ)
    (h : all_pos T) : all_pos (bump T x) := by
  induction T with
  | nil =>
    intro p hp
    simp [bump] at hp
    simp [hp]
  | cons q rest ih =>
    obtain ⟨y, c⟩ := q
    intro p hp
    by_cases hz : y = x
    · subst hz
      rw [bump, if_pos rfl] at hp
      rcases List.mem_cons.mp hp with h1 | h1
      · simp [h1]
      · exact h p (List.mem_cons_of_mem _ h1)
    · rw [bump, if_neg hz] at hp
      rcases List.mem_cons.mp hp with h1 | h1
      · exact h p (h1 ▸ List.mem_cons_self _ _)
      · have hrest : all_pos rest := fun q hq => h q (List.mem_cons_of_mem _ hq)
        exact ih hrest p h1

theorem all_pos_foldl_bump {κ : Type} [DecidableEq κ] (l : List κ) (T : Table κ)
    (h : all_pos T) : all_pos (List.foldl bump T l) := by
  induction l generalizing T with
  | nil => exact h
  | cons x xs ih => exact ih _ (all_pos_bump T x h)

theorem posKeys_eq_keysOf {κ : Type} (T : Table κ) (h : all_pos T) :
    posKeys T = keysOf T := by
  induction T with
  | nil => rfl
  | cons p rest ih =>
    obtain ⟨y, c⟩ := p
    rw [posKeys_cons, if_pos (h (y, c) (List.mem_cons_self _ _)),
      ih (fun q hq => h q (List.mem_cons_of_mem _ hq))]
    rfl

theorem posKeys_foldl_bump_twice {κ : Type} [DecidableEq κ] (l : List κ) (T : Table κ)
    (h : (keysOf T).Nodup) :
    posKeys (List.foldl bump (List.foldl bump T l) l) = posKeys (List.foldl bump T l) := by
  have h1 : (keysOf (List.foldl bump T l)).Nodup := nodup_keysOf_foldl_bump l T h
  have h2 : (keysOf (List.foldl bump (List.foldl bump T l) l)).Nodup :=
    nodup_keysOf_foldl_bump l _ h1
  have hsub : ∀ x ∈ l, x ∈ keysOf (List.foldl bump T l) := by
    intro x hx
    rw [mem_keysOf_foldl_bump]
    exact Or.inr hx
  have hkeys : keysOf (List.foldl bump (List.foldl bump T l) l) = keysOf (List.foldl bump T l) :=
    keysOf_foldl_bump_of_sub l _ hsub
  rw [posKeys_eq_filter _ h2, posKeys_eq_filter _ h1, hkeys]
  apply List.filter_congr
  intro x hx
  dsimp only
  rw [cnt_foldl_bump, cnt_foldl_bump]
  simp only [decide_eq_decide]
  omega

theorem gen_sentence_constraint_false_fields (S k : Nat) (s : List Nat) (T : Tables) :
    (gen_sentence_constraint S k s false T).1 =
      { src_to_alphabet1 := List.foldl bump T.src_to_alphabet1 (src_ev s)
        alphabet1_to_alphabet := List.foldl bump T.alphabet1_to_alphabet (a1a_ev s)
        alphabet_to_alphabet := List.foldl bump T.alphabet_to_alphabet (aa_ev s)
        alphabet_to_snk := List.foldl bump T.alphabet_to_snk (snk_ev s)
        alphabet1_to_alphabet_imply :=
          List.foldl bump T.alphabet1_to_alphabet_imply (if k ≤ 1 then [] else first_triple_ev s)
        alphabet_to_alphabet_imply :=
          List.foldl bump T.alphabet_to_alphabet_imply (if k ≤ 1 then [] else interior_triple_ev s)
        alphabet_to_snk_imply :=
          List.foldl bump T.alphabet_to_snk_imply (if k ≤ 1 then [] else snk_pair_ev s) } := by
  unfold gen_sentence_constraint gen_sentence_constraint_a gen_sentence_constraint_b
    agg_constraint_a agg_constraint_b src_ev snk_ev a1a_ev aa_ev snk_pair_ev
    first_triple_ev interior_triple_ev
  by_cases h0 : s.length = 0 <;> by_cases hk : k ≤ 1 <;>
    by_cases h1 : 1 < s.length <;> by_cases h2 : 2 < s.length <;>
    first
      | (exfalso; omega)
      | simp [h0, hk, h1, h2, List.foldl_map]

theorem generate_global_congr (S k : Nat) (T T' : Tables)
    (e1 : posKeys T.src_to_alphabet1 = posKeys T'.src_to_alphabet1)
    (e2 : posKeys T.alphabet1_to_alphabet = posKeys T'.alphabet1_to_alphabet)
    (e3 : posKeys T.alphabet_to_alphabet = posKeys T'.alphabet_to_alphabet)
    (e4 : posKeys T.alphabet_to_snk = posKeys T'.alphabet_to_snk)
    (e5 : posKeys T.alphabet1_to_alphabet_imply = posKeys T'.alphabet1_to_alphabet_imply)
    (e6 : posKeys T.alphabet_to_alphabet_imply = posKeys T'.alphabet_to_alphabet_imply)
    (e7 : posKeys T.alphabet_to_snk_imply = posKeys T'.alphabet_to_snk_imply) :
    generate_global_constraint S k T = generate_global_constraint S k T' := by
  unfold generate_global_constraint generate_global_constraint_a generate_global_constraint_b
  rw [e1, e2, e3, e4, e5, e6, e7]

/-- C6: aggregation is idempotent with respect to the emitted formula:
for any dict-shaped table state and any sample string `s`, aggregating
`s` twice (`gen_sentence_constraint(ext=False)` called twice) and then
calling `generate_global_constraint` yields exactly the same formula as
aggregating `s` once — repeated evidence only changes counters. -/
theorem aggregation_idempotent (S k : Nat) (s : List Nat) (T : Tables)
    (hwf : wf_tables T = true) :
    generate_global_constraint S k
        ((gen_sentence_constraint S k s false
          ((gen_sentence_constraint S k s false T).1)).1)
      = generate_global_constraint S k ((gen_sentence_constraint S k s false T).1) := by
  simp only [wf_tables, Bool.and_eq_true, decide_eq_true_eq] at hwf
  obtain ⟨⟨⟨⟨⟨⟨w1, w2⟩, w3⟩, w4⟩, w5⟩, w6⟩, w7⟩ := hwf
  simp only [gen_sentence_constraint_false_fields]
  apply generate_global_congr <;> dsimp only
  · exact posKeys_foldl_bump_twice _ _ w1
  · exact posKeys_foldl_bump_twice _ _ w2
  · exact posKeys_foldl_bump_twice _ _ w3
  · exact posKeys_foldl_bump_twice _ _ w4
  · exact posKeys_foldl_bump_twice _ _ w5
  · exact posKeys_foldl_bump_twice _ _ w6
  · exact posKeys_foldl_bump_twice _ _ w7

theorem aggregation_idempotent_witness :
    generate_global_constraint 2 2
        ((gen_sentence_constraint 2 2 [1, 2] false
          ((gen_sentence_constraint 2 2 [1, 2] false emptyTables).1)).1)
      = generate_global_constraint 2 2
          ((gen_sentence_constraint 2 2 [1, 2] false emptyTables).1) :=
  aggregation_idempotent 2 2 [1, 2] emptyTables (by decide)

/-- C4 counterexample: with `k = 1` the aggregation path skips
`_gen_sentence_constraint_b` entirely (`if SentenceTranslator.k <= 1`),
so for the length-3 positive sample `[1,1,1]` neither the first-triple
`(1,1,1)` nor the pair-before-`snk` `(1,1)` is recorded, contradicting
the claim for `k = 1`. -/
theorem k1_aggregation_records_no_triples :
    ((gen_sentence_constraint 1 1 [1, 1, 1] false emptyTables).1).alphabet1_to_alphabet_imply = []
    ∧ ((1, 1, 1) ∉ posKeys
        ((gen_sentence_constraint 1 1 [1, 1, 1] false emptyTables).1).alphabet1_to_alphabet_imply)
    ∧ ((gen_sentence_constraint 1 1 [1, 1, 1] false emptyTables).1).alphabet_to_snk_imply = [] := by
  decide

/-- C4 (amended): for `k ≥ 2` — the part-b tables are only updated when
`k > 1` — aggregating a positive sample `s` via
`gen_sentence_constraint(ext=False)` records, for `n > 2`, the first
triple in the first-triple table and every interior triple
(`i ∈ [1..n-3]`) in the interior-triple table, and, for `n > 1`, the
final pair in the pair-before-`snk` table. -/
theorem aggregation_records_triples (S k : Nat) (hk : 2 ≤ k) (s : List Nat) (T : Tables) :
    (2 < s.length →
      ((s.getD 0 0, s.getD 1 0, s.getD 2 0) ∈
        posKeys ((gen_sentence_constraint S k s false T).1).alphabet1_to_alphabet_imply)
      ∧ (∀ i, 1 ≤ i → i ≤ s.length - 3 →
          (s.getD i 0, s.getD (i + 1) 0, s.getD (i + 2) 0) ∈
            posKeys ((gen_sentence_constraint S k s false T).1).alphabet_to_alphabet_imply))
    ∧ (1 < s.length →
        (s.getD (s.length - 2) 0, s.getD (s.length - 1) 0) ∈
          posKeys ((gen_sentence_constraint S k s false T).1).alphabet_to_snk_imply) := by
  have hk1 : ¬k ≤ 1 := by omega
  simp only [gen_sentence_constraint_false_fields]
  refine ⟨fun h2 => ⟨?_, ?_⟩, fun h1 => ?_⟩
  · dsimp only
    rw [if_neg hk1]
    unfold first_triple_ev
    rw [if_pos h2]
    exact mem_posKeys_foldl_self _ _ _ (List.mem_singleton.mpr rfl)
  · intro i hi1 hi2
    rw [if_neg hk1]
    unfold interior_triple_ev
    rw [if_pos h2]
    apply mem_posKeys_foldl_self
    exact List.mem_map.mpr ⟨i, List.mem_range'_1.mpr ⟨hi1, by omega⟩, rfl⟩
  · rw [if_neg hk1]
    unfold snk_pair_ev
    rw [if_pos h1]
    exact mem_posKeys_foldl_self _ _ _ (List.mem_singleton.mpr rfl)

theorem aggregation_records_triples_witness :
    2 ≤ 2
    ∧ ((1, 1, 1) ∈ posKeys
        ((gen_sentence_constraint 1 2 [1, 1, 1, 1] false emptyTables).1).alphabet1_to_alphabet_imply)
    ∧ ((1, 1, 1) ∈ posKeys
        ((gen_sentence_constraint 1 2 [1, 1, 1, 1] false emptyTables).1).alphabet_to_alphabet_imply)
    ∧ ((1, 1) ∈ posKeys
        ((gen_sentence_constraint 1 2 [1, 1, 1, 1] false emptyTables).1).alphabet_to_snk_imply) :=
  ⟨by decide,
   ((aggregation_records_triples 1 2 (by decide) [1, 1, 1, 1] emptyTables).1 (by decide)).1,
   ((aggregation_records_triples 1 2 (by decide) [1, 1, 1, 1] emptyTables).1 (by decide)).2
     1 (by decide) (by decide),
   (aggregation_records_triples 1 2 (by decide) [1, 1, 1, 1] emptyTables).2 (by decide)⟩

/-- C5: with alphabet size exactly `S = 2` the sink id equals the
hardcoded literal `3` in `_get_alphabet_to_alphabet_imply_list`, so the
emitted pair-before-`snk` antecedents are the canonical-slot singletons
`[A_(id1,1,id2,k2)]` instead of the any-slot disjunction over `k1`
required by the claim (shown for `(id1,id2) = (1,2)`, `k = 2`); with
`S = 3` the same call produces the claimed any-slot antecedents. -/
theorem snk_imply_canonical_slot_when_S_eq_2 :
    get_alphabet_to_alphabet_imply_list 2 2 1 2 (2 + 1) false
      = [([quadruple_to_idx 2 2 1 1 2 1], [quadruple_to_idx 2 2 2 1 (2 + 1) 0]),
         ([quadruple_to_idx 2 2 1 1 2 2], [quadruple_to_idx 2 2 2 2 (2 + 1) 0])]
    ∧ (get_alphabet_to_alphabet_imply_list 2 2 1 2 (2 + 1) false).map Prod.fst
      ≠ [[quadruple_to_idx 2 2 1 1 2 1, quadruple_to_idx 2 2 1 2 2 1],
         [quadruple_to_idx 2 2 1 1 2 2, quadruple_to_idx 2 2 1 2 2 2]]
    ∧ get_alphabet_to_alphabet_imply_list 3 2 1 2 (3 + 1) false
      = [([quadruple_to_idx 3 2 1 1 2 1, quadruple_to_idx 3 2 1 2 2 1],
          [quadruple_to_idx 3 2 2 1 (3 + 1) 0]),
         ([quadruple_to_idx 3 2 1 1 2 2, quadruple_to_idx 3 2 1 2 2 2],
          [quadruple_to_idx 3 2 2 2 (3 + 1) 0])] := by
  decide

theorem quad_val_src (S k id2 k2 : Nat) (h4 : id2 ≤ S) :
    quadruple_to_idx S k 0 0 id2 k2 = (id2 - 1) * k + k2 := by
  unfold quadruple_to_idx
  rw [if_neg (by omega), if_pos rfl]

theorem quad_val_srcsnk (S k : Nat) :
    quadruple_to_idx S k 0 0 (S + 1) 0 = get_number S k := by
  unfold quadruple_to_idx
  rw [if_pos ⟨rfl, rfl⟩]

theorem quad_val_snk (S k id1 k1 : Nat) (h1 : 1 ≤ id1) :
    quadruple_to_idx S k id1 k1 (S + 1) 0
      = ((id1 - 1) * k + k1 + 1) * get_number S k := by
  unfold quadruple_to_idx
  rw [if_neg (by omega), if_neg (by omega), if_pos rfl]

theorem quad_val_interior (S k id1 k1 id2 k2 : Nat) (h1 : 1 ≤ id1) (h4 : id2 ≤ S) :
    quadruple_to_idx S k id1 k1 id2 k2
      = ((id1 - 1) * k + k1) * get_number S k + ((id2 - 1) * k + k2) := by
  unfold quadruple_to_idx
  rw [if_neg (by omega), if_neg (by omega), if_neg (by omega), Nat.add_assoc]

theorem shape_bounds_src (S k id2 k2 : Nat) (h3 : 1 ≤ id2) (h4 : id2 ≤ S)
    (h7 : 1 ≤ k2) (h8 : k2 ≤ k) :
    1 ≤ quadruple_to_idx S k 0 0 id2 k2
    ∧ quadruple_to_idx S k 0 0 id2 k2 < get_number S k := by
  rw [quad_val_src S k id2 k2 h4]
  have hb := pe_bound k S (id2 - 1) k2 (by omega) h7 h8
  unfold get_number
  omega

theorem shape_bounds_snk (S k id1 k1 : Nat) (h1 : 1 ≤ id1) (h2 : id1 ≤ S)
    (h5 : 1 ≤ k1) (h6 : k1 ≤ k) :
    get_number S k < quadruple_to_idx S k id1 k1 (S + 1) 0
    ∧ quadruple_to_idx S k id1 k1 (S + 1) 0 ≤ get_number S k * get_number S k
    ∧ quadruple_to_idx S k id1 k1 (S + 1) 0 % get_number S k = 0 := by
  rw [quad_val_snk S k id1 k1 h1]
  have hb := pe_bound k S (id1 - 1) k1 (by omega) h5 h6
  have hm2 : 2 ≤ (id1 - 1) * k + k1 + 1 := by omega
  have hmN : (id1 - 1) * k + k1 + 1 ≤ get_number S k := by unfold get_number; omega
  refine ⟨?_, Nat.mul_le_mul_right _ hmN, Nat.mul_mod_left _ _⟩
  have h2N : 2 * get_number S k ≤ ((id1 - 1) * k + k1 + 1) * get_number S k :=
    Nat.mul_le_mul_right _ hm2
  have hN1 : 1 ≤ get_number S k := Nat.succ_le_succ (Nat.zero_le _)
  omega

theorem shape_bounds_interior (S k id1 k1 id2 k2 : Nat)
    (h1 : 1 ≤ id1) (h2 : id1 ≤ S) (h3 : 1 ≤ id2) (h4 : id2 ≤ S)
    (h5 : 1 ≤ k1) (h6 : k1 ≤ k) (h7 : 1 ≤ k2) (h8 : k2 ≤ k) :
    get_number S k < quadruple_to_idx S k id1 k1 id2 k2
    ∧ quadruple_to_idx S k id1 k1 id2 k2 < get_number S k * get_number S k
    ∧ quadruple_to_idx S k id1 k1 id2 k2 % get_number S k = (id2 - 1) * k + k2 := by
  rw [quad_val_interior S k id1 k1 id2 k2 h1 h4]
  have hr := pe_bound k S (id1 - 1) k1 (by omega) h5 h6
  have hc := pe_bound k S (id2 - 1) k2 (by omega) h7 h8
  have hcN : (id2 - 1) * k + k2 < get_number S k := by unfold get_number; omega
  have hNN : get_number S k * get_number S k
      = k * S * get_number S k + get_number S k := by
    unfold get_number; ring
  have hrN : ((id1 - 1) * k + k1) * get_number S k ≤ k * S * get_number S k :=
    Nat.mul_le_mul_right _ hr.2
  have h1N : 1 * get_number S k ≤ ((id1 - 1) * k + k1) * get_number S k :=
    Nat.mul_le_mul_right _ hr.1
  rw [one_mul] at h1N
  refine ⟨by omega, by omega, ?_⟩
  have e : ((id1 - 1) * k + k1) * get_number S k + ((id2 - 1) * k + k2)
      = get_number S k * ((id1 - 1) * k + k1) + ((id2 - 1) * k + k2) := by ring
  rw [e, Nat.mul_add_mod, Nat.mod_eq_of_lt hcN]

/-- C9: under any configuration with `S ≥ 1`, `k ≥ 1`,
`_quadruple_to_idx` maps the valid 4-tuples — `src→symbol`, `src→snk`,
`symbol→snk` and interior edges — injectively into `[1, N^2]` where
`N = k*S+1`; in particular no valid edge variable aliases the
constant-true sentinel (index `0`) or the constant-false sentinel
(index `N^2+1`) of `var_list`. -/
theorem valid_tuples_injective_in_range (S k : Nat) (hS : 1 ≤ S) (hk : 1 ≤ k) :
    (∀ t, valid_tuple S k t →
      1 ≤ quad_idx S k t ∧ quad_idx S k t ≤ get_number S k ^ 2)
    ∧ (∀ t u, valid_tuple S k t → valid_tuple S k u →
        quad_idx S k t = quad_idx S k u → t = u) := by
  have hsq : get_number S k ^ 2 = get_number S k * get_number S k := by ring
  have hN1 : 1 ≤ get_number S k := Nat.succ_le_succ (Nat.zero_le _)
  have hNpos : 0 < get_number S k := Nat.succ_pos _
  have hNN : get_number S k ≤ get_number S k * get_number S k :=
    Nat.le_mul_of_pos_left _ hNpos
  constructor
  · rintro ⟨i1, s1, i2, s2⟩ hv
    rw [hsq]
    unfold valid_tuple at hv
    unfold quad_idx
    dsimp only at hv ⊢
    rcases hv with ⟨e1, e2, b3, b4, b7, b8⟩ | ⟨e1, e2, e3, e4⟩ |
      ⟨b1, b2, b5, b6, e3, e4⟩ | ⟨b1, b2, b3, b4, b5, b6, b7, b8⟩
    · subst e1; subst e2
      have h := shape_bounds_src S k i2 s2 b3 b4 b7 b8
      omega
    · subst e1; subst e2; subst e3; subst e4
      rw [quad_val_srcsnk]
      omega
    · subst e3; subst e4
      have h := shape_bounds_snk S k i1 s1 b1 b2 b5 b6
      omega
    · have h := shape_bounds_interior S k i1 s1 i2 s2 b1 b2 b5 b6 b3 b4 b7 b8
      omega
  · rintro ⟨i1, s1, i2, s2⟩ ⟨j1, u1, j2, u2⟩ hv hw heq
    unfold valid_tuple at hv hw
    unfold quad_idx at heq
    dsimp only at hv hw heq
    rcases hv with ⟨e1, e2, b3, b4, b7, b8⟩ | ⟨e1, e2, e3, e4⟩ |
      ⟨b1, b2, b5, b6, e3, e4⟩ | ⟨b1, b2, b3, b4, b5, b6, b7, b8⟩ <;>
      rcases hw with ⟨f1, f2, c3, c4, c7, c8⟩ | ⟨f1, f2, f3, f4⟩ |
        ⟨c1, c2, c5, c6, f3, f4⟩ | ⟨c1, c2, c3, c4, c5, c6, c7, c8⟩
    -- A vs A
    · subst e1; subst e2; subst f1; subst f2
      rw [quad_val_src S k i2 s2 b4, quad_val_src S k j2 u2 c4] at heq
      have h := pe_inj k (i2 - 1) s2 (j2 - 1) u2 b7 b8 c7 c8 heq
      obtain ⟨hi, hs⟩ := h
      have hi2 : i2 = j2 := by omega
      subst hi2; subst hs
      rfl
    -- A vs B
    · subst e1; subst e2; subst f1; subst f2; subst f3; subst f4
      have h := shape_bounds_src S k i2 s2 b3 b4 b7 b8
      rw [quad_val_srcsnk] at heq
      omega
    -- A vs C
    · subst e1; subst e2; subst f3; subst f4
      have h := shape_bounds_src S k i2 s2 b3 b4 b7 b8
      have h2 := shape_bounds_snk S k j1 u1 c1 c2 c5 c6
      omega
    -- A vs D
    · subst e1; subst e2
      have h := shape_bounds_src S k i2 s2 b3 b4 b7 b8
      have h2 := shape_bounds_interior S k j1 u1 j2 u2 c1 c2 c5 c6 c3 c4 c7 c8
      omega
    -- B vs A
    · subst e1; subst e2; subst e3; subst e4; subst f1; subst f2
      have h := shape_bounds_src S k j2 u2 c3 c4 c7 c8
      rw [quad_val_srcsnk] at heq
      omega
    -- B vs B
    · subst e1; subst e2; subst e3; subst e4; subst f1; subst f2; subst f3; subst f4
      rfl
    -- B vs C
    · subst e1; subst e2; subst e3; subst e4; subst f3; subst f4
      have h2 := shape_bounds_snk S k j1 u1 c1 c2 c5 c6
      rw [quad_val_srcsnk] at heq
      omega
    -- B vs D
    · subst e1; subst e2; subst e3; subst e4
      have h2 := shape_bounds_interior S k j1 u1 j2 u2 c1 c2 c5 c6 c3 c4 c7 c8
      rw [quad_val_srcsnk] at heq
      omega
    -- C vs A
    · subst e3; subst e4; subst f1; subst f2
      have h := shape_bounds_snk S k i1 s1 b1 b2 b5 b6
      have h2 := shape_bounds_src S k j2 u2 c3 c4 c7 c8
      omega
    -- C vs B
    · subst e3; subst e4; subst f1; subst f2; subst f3; subst f4
      have h := shape_bounds_snk S k i1 s1 b1 b2 b5 b6
      rw [quad_val_srcsnk] at heq
      omega
    -- C vs C
    · subst e3; subst e4; subst f3; subst f4
      rw [quad_val_snk S k i1 s1 b1, quad_val_snk S k j1 u1 c1] at heq
      have hmm := Nat.eq_of_mul_eq_mul_right hNpos heq
      have h := pe_inj k (i1 - 1) s1 (j1 - 1) u1 b5 b6 c5 c6 (by omega)
      obtain ⟨hi, hs⟩ := h
      have hi1 : i1 = j1 := by omega
      subst hi1; subst hs
      rfl
    -- C vs D
    · subst e3; subst e4
      have h := shape_bounds_snk S k i1 s1 b1 b2 b5 b6
      have h2 := shape_bounds_interior S k j1 u1 j2 u2 c1 c2 c5 c6 c3 c4 c7 c8
      have hb := pe_bound k S (j2 - 1) u2 (by omega) c7 c8
      rw [heq] at h
      omega
    -- D vs A
    · subst f1; subst f2
      have h := shape_bounds_interior S k i1 s1 i2 s2 b1 b2 b5 b6 b3 b4 b7 b8
      have h2 := shape_bounds_src S k j2 u2 c3 c4 c7 c8
      omega
    -- D vs B
    · subst f1; subst f2; subst f3; subst f4
      have h := shape_bounds_interior S k i1 s1 i2 s2 b1 b2 b5 b6 b3 b4 b7 b8
      rw [quad_val_srcsnk] at heq
      omega
    -- D vs C
    · subst f3; subst f4
      have h := shape_bounds_interior S k i1 s1 i2 s2 b1 b2 b5 b6 b3 b4 b7 b8
      have h2 := shape_bounds_snk S k j1 u1 c1 c2 c5 c6
      have hb := pe_bound k S (i2 - 1) s2 (by omega) b7 b8
      rw [heq] at h
      omega
    -- D vs D
    · have ht := shape_bounds_interior S k i1 s1 i2 s2 b1 b2 b5 b6 b3 b4 b7 b8
      have hu := shape_bounds_interior S k j1 u1 j2 u2 c1 c2 c5 c6 c3 c4 c7 c8
      have hcc : (i2 - 1) * k + s2 = (j2 - 1) * k + u2 := by
        rw [← ht.2.2, ← hu.2.2, heq]
      rw [quad_val_interior S k i1 s1 i2 s2 b1 b6,
        quad_val_interior S k j1 u1 j2 u2 c1 c6] at heq
      have hrr : ((i1 - 1) * k + s1) * get_number S k
          = ((j1 - 1) * k + u1) * get_number S k := by omega
      have hr := Nat.eq_of_mul_eq_mul_right hNpos hrr
      have ha := pe_inj k (i1 - 1) s1 (j1 - 1) u1 b3 b4 c3 c4 hr
      have hb := pe_inj k (i2 - 1) s2 (j2 - 1) u2 b7 b8 c7 c8 hcc
      obtain ⟨ha1, ha2⟩ := ha
      obtain ⟨hb1, hb2⟩ := hb
      have hi1 : i1 = j1 := by omega
      have hi2 : i2 = j2 := by omega
      subst hi1; subst hi2; subst ha2; subst hb2
      rfl

theorem valid_tuples_injective_in_range_witness :
    (1 ≤ quad_idx 1 2 (0, 0, 1, 2) ∧ quad_idx 1 2 (0, 0, 1, 2) ≤ get_number 1 2 ^ 2)
    ∧ ((1, 1, 2, 0) : Nat × Nat × Nat × Nat) = (1, 1, 2, 0) :=
  ⟨(valid_tuples_injective_in_range 1 2 (by decide) (by decide)).1 (0, 0, 1, 2) (by decide),
   (valid_tuples_injective_in_range 1 2 (by decide) (by decide)).2 (1, 1, 2, 0) (1, 1, 2, 0)
     (by decide) (by decide) rfl⟩

theorem getD_mem (s : List Nat) (i : Nat) (h : i < s.length) : s.getD i 0 ∈ s := by
  rw [List.getD_eq_getElem s 0 h]
  exact List.getElem_mem h

theorem flatMap_singleton {α β : Type} (l : List α) (f : α → β) :
    l.flatMap (fun x => [f x]) = l.map f := by
  induction l with
  | nil => rfl
  | cons x xs ih => simp [List.flatMap_cons, ih]

theorem eval_get_and_true (S k : Nat) (rho : Nat → Bool) (l : List Nat) :
    ((get_and_formula S k l true).eval rho = true)
      ↔ ∀ i ∈ l, (var_at S k i).eval rho = true := by
  unfold get_and_formula
  by_cases h : l = []
  · subst h
    simp [var_at, Formula.eval]
  · rw [if_neg h, if_pos rfl, Formula.eval_and_eq_true]
    constructor
    · intro hall i hi
      exact hall _ (List.mem_map_of_mem _ hi)
    · intro hall f hf
      obtain ⟨i, hi, rfl⟩ := List.mem_map.mp hf
      exact hall i hi

theorem getA2A_src (S k id2 : Nat) :
    get_alphabet_to_alphabet_list S k 0 id2 false = [quadruple_to_idx S k 0 0 id2 1] := by
  unfold get_alphabet_to_alphabet_list
  rw [if_neg (by decide), if_pos rfl]

theorem gen_a_src_1_eq (S k : Nat) (s : List Nat) :
    gen_a_src_1 S k s
      = get_or_formula S k
          (get_alphabet_to_alphabet_list S k (s.getD 0 0) (s.getD 1 0) true) true := by
  unfold gen_a_src_1 get_alphabet_to_alphabet_list
  rw [if_pos rfl]

theorem gen_a_snk_eq (S k : Nat) (s : List Nat) (h2 : 2 ≤ s.length)
    (hid : 1 ≤ s.getD (s.length - 1) 0) :
    gen_a_snk S k s
      = get_or_formula S k
          (get_alphabet_to_alphabet_list S k (s.getD (s.length - 1) 0) (S + 1) false) true := by
  unfold gen_a_snk get_alphabet_to_alphabet_list
  rw [if_neg (by omega), if_neg (by decide), if_neg (by omega), if_pos rfl]

theorem eval_gen_a_common (S k : Nat) (rho : Nat → Bool) (s : List Nat) :
    ((gen_a_common S k s).eval rho = true) ↔
      ∀ i ∈ List.range' 1 (s.length - 2),
        ((get_or_formula S k
          (get_alphabet_to_alphabet_list S k (s.getD i 0) (s.getD (i + 1) 0) false)
          true).eval rho = true) := by
  unfold gen_a_common
  rw [Formula.eval_and_eq_true]
  constructor
  · intro h i hi
    exact h _ (List.mem_map_of_mem _ hi)
  · intro h f hf
    obtain ⟨i, hi, rfl⟩ := List.mem_map.mp hf
    exact h i hi

theorem eval_per_sample_part_a (S k : Nat) (rho : Nat → Bool) (s : List Nat)
    (hvalid : ∀ c ∈ s, 1 ≤ c ∧ c ≤ S) (hlen : s.length ≠ 1) :
    ((per_sample_part_a S k s).eval rho = true) ↔
      ((∀ id ∈ src_ev s, (var_at S k (quadruple_to_idx S k 0 0 id 1)).eval rho = true)
       ∧ (∀ p ∈ a1a_ev s, ((get_or_formula S k
            (get_alphabet_to_alphabet_list S k p.1 p.2 true) true).eval rho = true))
       ∧ (∀ p ∈ aa_ev s, ((get_or_formula S k
            (get_alphabet_to_alphabet_list S k p.1 p.2 false) true).eval rho = true))
       ∧ (∀ id ∈ snk_ev s, ((get_or_formula S k
            (get_alphabet_to_alphabet_list S k id (S + 1) false) true).eval rho = true))) := by
  by_cases h0 : s.length = 0
  · unfold per_sample_part_a src_ev snk_ev a1a_ev aa_ev
    simp [h0, var_at, Formula.eval]
  · have h1 : 1 < s.length := by omega
    have hlast : 1 ≤ s.getD (s.length - 1) 0 :=
      (hvalid _ (getD_mem s (s.length - 1) (by omega))).1
    unfold per_sample_part_a gen_constraint_a_formula
    rw [if_neg h0, if_pos h1, Formula.eval_and_eq_true]
    unfold src_ev a1a_ev aa_ev snk_ev gen_a_src
    rw [if_neg h0, if_pos h1, if_neg h0]
    rw [gen_a_src_1_eq, gen_a_snk_eq S k s (by omega) hlast]
    by_cases h2 : 2 < s.length
    · rw [if_pos h2, if_pos h2]
      simp only [List.forall_mem_append, List.forall_mem_singleton, List.forall_mem_map,
        eval_gen_a_common]
      tauto
    · rw [if_neg h2, if_neg h2]
      simp only [List.forall_mem_append, List.forall_mem_singleton]
      simp only [List.not_mem_nil, false_implies, implies_true, true_and, and_true]
      tauto

theorem eval_global_part_a (S k : Nat) (rho : Nat → Bool) (T : Tables) :
    ((Formula.and (generate_global_constraint_a S k T)).eval rho = true) ↔
      ((∀ id ∈ posKeys T.src_to_alphabet1,
          (var_at S k (quadruple_to_idx S k 0 0 id 1)).eval rho = true)
       ∧ (∀ p ∈ posKeys T.alphabet1_to_alphabet, ((get_or_formula S k
            (get_alphabet_to_alphabet_list S k p.1 p.2 true) true).eval rho = true))
       ∧ (∀ p ∈ posKeys T.alphabet_to_alphabet, ((get_or_formula S k
            (get_alphabet_to_alphabet_list S k p.1 p.2 false) true).eval rho = true))
       ∧ (∀ id ∈ posKeys T.alphabet_to_snk, ((get_or_formula S k
            (get_alphabet_to_alphabet_list S k id (S + 1) false) true).eval rho = true))) := by
  unfold generate_global_constraint_a
  rw [Formula.eval_and_eq_true]
  have hflat : (posKeys T.src_to_alphabet1).flatMap
      (fun id2 => get_alphabet_to_alphabet_list S k 0 id2 false)
      = (posKeys T.src_to_alphabet1).map (fun id2 => quadruple_to_idx S k 0 0 id2 1) := by
    have : (fun id2 => get_alphabet_to_alphabet_list S k 0 id2 false)
        = fun id2 => [quadruple_to_idx S k 0 0 id2 1] := by
      funext id2
      exact getA2A_src S k id2
    rw [this, flatMap_singleton]
  rw [hflat]
  have hmapiff : (∀ i ∈ (posKeys T.src_to_alphabet1).map
        (fun id2 => quadruple_to_idx S k 0 0 id2 1), (var_at S k i).eval rho = true)
      ↔ (∀ id ∈ posKeys T.src_to_alphabet1,
          (var_at S k (quadruple_to_idx S k 0 0 id 1)).eval rho = true) := by
    constructor
    · intro h id hid
      exact h _ (List.mem_map_of_mem _ hid)
    · intro h i hi
      obtain ⟨id, hid, rfl⟩ := List.mem_map.mp hi
      exact h id hid
  simp only [List.forall_mem_append, List.forall_mem_cons, List.forall_mem_map]
  rw [eval_get_and_true, hmapiff]
  simp only [List.not_mem_nil, false_implies, implies_true, and_true, true_and]
  tauto

theorem mem_keys_foldl_agg {κ : Type} [DecidableEq κ] (S k : Nat)
    (f : Tables → Table κ) (ev : List Nat → List κ)
    (hcomm : ∀ s T, f ((gen_sentence_constraint S k s false T).1)
      = List.foldl bump (f T) (ev s))
    (samples : List (List Nat)) (T : Tables) (key : κ) :
    key ∈ keysOf (f (samples.foldl
        (fun Tc s => (gen_sentence_constraint S k s false Tc).1) T))
      ↔ key ∈ keysOf (f T) ∨ ∃ s ∈ samples, key ∈ ev s := by
  induction samples generalizing T with
  | nil => simp
  | cons s ss ih =>
    rw [List.foldl_cons, ih, hcomm, mem_keysOf_foldl_bump]
    constructor
    · rintro ((h | h) | ⟨s', hs', hkey⟩)
      · exact Or.inl h
      · exact Or.inr ⟨s, List.mem_cons_self s ss, h⟩
      · exact Or.inr ⟨s', List.mem_cons_of_mem _ hs', hkey⟩
    · rintro (h | ⟨s', hs', hkey⟩)
      · exact Or.inl (Or.inl h)
      · rcases List.mem_cons.mp hs' with h | h
        · subst h
          exact Or.inl (Or.inr hkey)
        · exact Or.inr ⟨s', h, hkey⟩

theorem all_pos_foldl_agg {κ : Type} [DecidableEq κ] (S k : Nat)
    (f : Tables → Table κ) (ev : List Nat → List κ)
    (hcomm : ∀ s T, f ((gen_sentence_constraint S k s false T).1)
      = List.foldl bump (f T) (ev s))
    (samples : List (List Nat)) (T : Tables) (h : all_pos (f T)) :
    all_pos (f (samples.foldl
      (fun Tc s => (gen_sentence_constraint S k s false Tc).1) T)) := by
  induction samples generalizing T with
  | nil => exact h
  | cons s ss ih =>
    rw [List.foldl_cons]
    apply ih
    rw [hcomm]
    exact all_pos_foldl_bump _ _ h

theorem mem_posKeys_aggregate {κ : Type} [DecidableEq κ] (S k : Nat)
    (f : Tables → Table κ) (ev : List Nat → List κ)
    (hcomm : ∀ s T, f ((gen_sentence_constraint S k s false T).1)
      = List.foldl bump (f T) (ev s))
    (hempty : f emptyTables = [])
    (samples : List (List Nat)) (key : κ) :
    key ∈ posKeys (f (aggregate_samples S k samples)) ↔ ∃ s ∈ samples, key ∈ ev s := by
  have hap : all_pos (f (aggregate_samples S k samples)) := by
    unfold aggregate_samples
    apply all_pos_foldl_agg S k f ev hcomm
    rw [hempty]
    intro p hp
    exact absurd hp (List.not_mem_nil p)
  rw [posKeys_eq_keysOf _ hap]
  unfold aggregate_samples
  rw [mem_keys_foldl_agg S k f ev hcomm samples emptyTables key, hempty]
  simp [keysOf]

theorem src_field_comm (S k : Nat) (s : List Nat) (T : Tables) :
    ((gen_sentence_constraint S k s false T).1).src_to_alphabet1
      = List.foldl bump T.src_to_alphabet1 (src_ev s) := by
  rw [gen_sentence_constraint_false_fields]

theorem a1a_field_comm (S k : Nat) (s : List Nat) (T : Tables) :
    ((gen_sentence_constraint S k s false T).1).alphabet1_to_alphabet
      = List.foldl bump T.alphabet1_to_alphabet (a1a_ev s) := by
  rw [gen_sentence_constraint_false_fields]

theorem aa_field_comm (S k : Nat) (s : List Nat) (T : Tables) :
    ((gen_sentence_constraint S k s false T).1).alphabet_to_alphabet
      = List.foldl bump T.alphabet_to_alphabet (aa_ev s) := by
  rw [gen_sentence_constraint_false_fields]

theorem snk_field_comm (S k : Nat) (s : List Nat) (T : Tables) :
    ((gen_sentence_constraint S k s false T).1).alphabet_to_snk
      = List.foldl bump T.alphabet_to_snk (snk_ev s) := by
  rw [gen_sentence_constraint_false_fields]

/-- C1 (amended): for a finite set of positive samples over `(S, k)`
with no repeated edge/triple evidence and no sample of length exactly 1
— for a length-1 sample the standalone `__gen_a_snk` emits the
canonical-slot edge only, while the aggregated Part A emits an any-slot
disjunction, so the original claim fails there — the conjunction of the
per-sample standalone Part a formulas is logically equivalent to Part A
of the global constraint built after aggregating those samples. -/
theorem part_a_aggregation_equivalence (S k : Nat) (hk : 1 ≤ k)
    (samples : List (List Nat))
    (hvalid : ∀ s ∈ samples, ∀ c ∈ s, 1 ≤ c ∧ c ≤ S)
    (hlen : ∀ s ∈ samples, s.length ≠ 1)
    (hnr : no_repeat_evidence samples)
    (rho : Nat → Bool) :
    ((Formula.and (samples.map (per_sample_part_a S k))).eval rho = true)
      ↔ ((Formula.and (generate_global_constraint_a S k
            (aggregate_samples S k samples))).eval rho = true) := by
  rw [Formula.eval_and_eq_true, eval_global_part_a]
  have hsrc := fun key => mem_posKeys_aggregate S k (fun T => T.src_to_alphabet1)
    src_ev (src_field_comm S k) rfl samples key
  have ha1a := fun key => mem_posKeys_aggregate S k (fun T => T.alphabet1_to_alphabet)
    a1a_ev (a1a_field_comm S k) rfl samples key
  have haa := fun key => mem_posKeys_aggregate S k (fun T => T.alphabet_to_alphabet)
    aa_ev (aa_field_comm S k) rfl samples key
  have hsnk := fun key => mem_posKeys_aggregate S k (fun T => T.alphabet_to_snk)
    snk_ev (snk_field_comm S k) rfl samples key
  constructor
  · intro h
    refine ⟨?_, ?_, ?_, ?_⟩
    · intro id hid
      obtain ⟨s, hs, hev⟩ := (hsrc id).mp hid
      have hps := h _ (List.mem_map_of_mem _ hs)
      exact ((eval_per_sample_part_a S k rho s (hvalid s hs) (hlen s hs)).mp hps).1 id hev
    · intro p hp
      obtain ⟨s, hs, hev⟩ := (ha1a p).mp hp
      have hps := h _ (List.mem_map_of_mem _ hs)
      exact ((eval_per_sample_part_a S k rho s (hvalid s hs) (hlen s hs)).mp hps).2.1 p hev
    · intro p hp
      obtain ⟨s, hs, hev⟩ := (haa p).mp hp
      have hps := h _ (List.mem_map_of_mem _ hs)
      exact ((eval_per_sample_part_a S k rho s (hvalid s hs) (hlen s hs)).mp hps).2.2.1 p hev
    · intro id hid
      obtain ⟨s, hs, hev⟩ := (hsnk id).mp hid
      have hps := h _ (List.mem_map_of_mem _ hs)
      exact ((eval_per_sample_part_a S k rho s (hvalid s hs) (hlen s hs)).mp hps).2.2.2 id hev
  · rintro ⟨g1, g2, g3, g4⟩ f hf
    obtain ⟨s, hs, rfl⟩ := List.mem_map.mp hf
    rw [eval_per_sample_part_a S k rho s (hvalid s hs) (hlen s hs)]
    refine ⟨?_, ?_, ?_, ?_⟩
    · intro id hev
      exact g1 id ((hsrc id).mpr ⟨s, hs, hev⟩)
    · intro p hev
      exact g2 p ((ha1a p).mpr ⟨s, hs, hev⟩)
    · intro p hev
      exact g3 p ((haa p).mpr ⟨s, hs, hev⟩)
    · intro id hev
      exact g4 id ((hsnk id).mpr ⟨s, hs, hev⟩)

theorem part_a_aggregation_equivalence_witness :
    ((Formula.and ([[1, 2]].map (per_sample_part_a 2 2))).eval (fun _ => true) = true)
      ↔ ((Formula.and (generate_global_constraint_a 2 2
            (aggregate_samples 2 2 [[1, 2]]))).eval (fun _ => true) = true) :=
  part_a_aggregation_equivalence 2 2 (by decide) [[1, 2]] (by decide) (by decide)
    (by decide) (fun _ => true)

/-- C1 counterexample: with `S = 1, k = 2` and the single repeat-free
positive sample `"a"` (ids `[1]`), the assignment making variables `1`
(`src→(a,1)`) and `9` (`(a,2)→snk`) true satisfies Part A of the global
constraint but falsifies the standalone Part a formula, which demands
the canonical `(a,1)→snk` edge (variable `6`): the claimed equivalence
fails for length-1 samples. -/
theorem part_a_aggregation_inequivalence_len1 :
    no_repeat_evidence [[1]]
    ∧ (∀ s ∈ [[1]], ∀ c ∈ s, 1 ≤ c ∧ c ≤ 1)
    ∧ ((Formula.and (generate_global_constraint_a 1 2
          (aggregate_samples 1 2 [[1]]))).eval (fun i => i == 1 || i == 9) = true)
    ∧ ((Formula.and ([[1]].map (per_sample_part_a 1 2))).eval
          (fun i => i == 1 || i == 9) = false) := by
  decide
